import Mathlib

/-!
Verification of the replication filter engine and checker unit of the `dm`
repository (Go sources `syncer/filter.go`, the `pkg/filter` package embedded
there, and `checker/checker.go`).

The Go code matches schema/table names with `regexp` patterns compiled by
`regexp.MustCompile`.  We model the regular-expression engine with Brzozowski
derivatives over a small syntax covering exactly the constructs appearing in
the repository's patterns (literals, escapes `\s \S \d \D \w \W` and escaped
punctuation, `.`, groups, alternation, `*` `+` `?` and their lazy variants,
a leading `^` anchor).  All compilations in the source prepend `(?i)`, so the
engine matches literals case-insensitively throughout.
-/

/-! ## Character classes (RE2 semantics, ASCII case folding as in `Char.toLower`) -/

/-- RE2 class `\s`: `[\t\n\f\r ]`. -/
def ccSpace (c : Char) : Bool :=
  decide (c.toNat = 9 ∨ c.toNat = 10 ∨ c.toNat = 12 ∨ c.toNat = 13 ∨ c.toNat = 32)

/-- RE2 class `\d`: `[0-9]`. -/
def ccDigit (c : Char) : Bool :=
  decide (48 ≤ c.toNat ∧ c.toNat ≤ 57)

/-- RE2 class `\w`: `[0-9A-Za-z_]`. -/
def ccWord (c : Char) : Bool :=
  decide ((48 ≤ c.toNat ∧ c.toNat ≤ 57) ∨ (65 ≤ c.toNat ∧ c.toNat ≤ 90) ∨
    (97 ≤ c.toNat ∧ c.toNat ≤ 122) ∨ c.toNat = 95)

/-- RE2 `.` (without the `s` flag): any character except newline. -/
def ccDot (c : Char) : Bool :=
  decide (c.toNat ≠ 10)

/-- Character matchers usable in our regex syntax. -/
inductive CCls where
  | lit (c : Char)
  | dot
  | space
  | notSpace
  | digit
  | notDigit
  | word
  | notWord
deriving DecidableEq, Repr

/-- Character-level matching.  Literals compare case-insensitively because
every compilation site in the source prepends the `(?i)` flag. -/
def CCls.matches : CCls → Char → Bool
  | .lit d, c => c.toLower == d.toLower
  | .dot, c => ccDot c
  | .space, c => ccSpace c
  | .notSpace, c => !ccSpace c
  | .digit, c => ccDigit c
  | .notDigit, c => !ccDigit c
  | .word, c => ccWord c
  | .notWord, c => !ccWord c

/-! ## Regular expressions and Brzozowski derivatives -/

inductive RE where
  | fail
  | eps
  | cls (k : CCls)
  | seq (a b : RE)
  | alt (a b : RE)
  | star (a : RE)
deriving DecidableEq, Repr

def RE.nullable : RE → Bool
  | .fail => false
  | .eps => true
  | .cls _ => false
  | .seq a b => a.nullable && b.nullable
  | .alt a b => a.nullable || b.nullable
  | .star _ => true

/-- Smart sequencing, keeping derivative terms small. -/
def RE.mkSeq : RE → RE → RE
  | .fail, _ => .fail
  | .eps, r => r
  | a, b =>
    match b with
    | .fail => .fail
    | .eps => a
    | b => .seq a b

/-- Smart alternation, keeping derivative terms small. -/
def RE.mkAlt : RE → RE → RE
  | .fail, r => r
  | a, b =>
    match b with
    | .fail => a
    | b => .alt a b

def RE.deriv : RE → Char → RE
  | .fail, _ => .fail
  | .eps, _ => .fail
  | .cls k, c => if k.matches c then .eps else .fail
  | .seq a b, c =>
    if a.nullable then RE.mkAlt (RE.mkSeq (a.deriv c) b) (b.deriv c)
    else RE.mkSeq (a.deriv c) b
  | .alt a b, c => RE.mkAlt (a.deriv c) (b.deriv c)
  | .star a, c => RE.mkSeq (a.deriv c) (.star a)

/-- Does `r` match the whole character list? -/
def RE.matchWhole : RE → List Char → Bool
  | r, [] => r.nullable
  | r, c :: cs => (r.deriv c).matchWhole cs

/-- Does `r` match some initial segment of the list (a match anchored at the
start, as for a pattern beginning with `^` under Go's search semantics)? -/
def RE.matchFromStart : RE → List Char → Bool
  | r, [] => r.nullable
  | r, c :: cs => r.nullable || (r.deriv c).matchFromStart cs

/-- Does `r` match somewhere inside the list (Go `MatchString` /
`FindStringIndex` search semantics, no anchors)? -/
def RE.searchAny : RE → List Char → Bool
  | r, [] => r.nullable
  | r, c :: cs => r.matchFromStart (c :: cs) || r.searchAny cs

/-! ## Parsing the repository's pattern strings

`parseA` (alternation), `parseC` (concatenation) and `parseP` (one atom with
postfix repetition) form a fuel-indexed recursive-descent reading of the
pattern text.  A `none` result models a `regexp.MustCompile` panic: the parser
accepts exactly the syntax subset described in the module comment, which
covers every pattern occurring in the repository. -/

/-- Escape classes: RE2 named classes, control escapes, and escaped
punctuation; an escaped alphanumeric outside the recognized set is invalid. -/
def pEsc (e : Char) : Option CCls :=
  if e == 's' then some .space
  else if e == 'S' then some .notSpace
  else if e == 'd' then some .digit
  else if e == 'D' then some .notDigit
  else if e == 'w' then some .word
  else if e == 'W' then some .notWord
  else if e == 'n' then some (.lit (Char.ofNat 10))
  else if e == 't' then some (.lit (Char.ofNat 9))
  else if e == 'r' then some (.lit (Char.ofNat 13))
  else if e == 'f' then some (.lit (Char.ofNat 12))
  else if e == 'v' then some (.lit (Char.ofNat 11))
  else if e == 'a' then some (.lit (Char.ofNat 7))
  else if ccWord e then none
  else some (.lit e)

/-- Characters that cannot stand alone as a literal atom. -/
def isMetaCh (c : Char) : Bool :=
  c == '(' || c == ')' || c == '|' || c == '*' || c == '+' || c == '?' ||
  c == '[' || c == ']' || c == '^' || c == '$' || c == '\\' ||
  c.toNat == 123 || c.toNat == 125

/-- Consume one optional lazy-modifier `?` after a repetition operator. -/
def skipLazy : List Char → List Char
  | '?' :: rest => rest
  | cs => cs

mutual

def parseA : Nat → List Char → Option (RE × List Char)
  | 0, _ => none
  | n + 1, cs =>
    match parseC n cs with
    | none => none
    | some (r, rest) =>
      match rest with
      | '|' :: rest2 =>
        match parseA n rest2 with
        | some (r2, rest3) => some (.alt r r2, rest3)
        | none => none
      | _ => some (r, rest)

def parseC : Nat → List Char → Option (RE × List Char)
  | 0, _ => none
  | n + 1, cs =>
    match cs with
    | [] => some (.eps, [])
    | '|' :: _ => some (.eps, cs)
    | ')' :: _ => some (.eps, cs)
    | _ =>
      match parseP n cs with
      | none => none
      | some (r1, rest) =>
        match parseC n rest with
        | some (r2, rest2) => some (.seq r1 r2, rest2)
        | none => none

def parseP : Nat → List Char → Option (RE × List Char)
  | 0, _ => none
  | n + 1, cs =>
    match parseB n cs with
    | none => none
    | some (r, rest) =>
      match rest with
      | '*' :: rest2 => some (.star r, skipLazy rest2)
      | '+' :: rest2 => some (.seq r (.star r), skipLazy rest2)
      | '?' :: rest2 => some (.alt .eps r, skipLazy rest2)
      | _ => some (r, rest)

def parseB : Nat → List Char → Option (RE × List Char)
  | 0, _ => none
  | n + 1, cs =>
    match cs with
    | [] => none
    | '(' :: rest =>
      match parseA n rest with
      | some (r, ')' :: rest2) => some (r, rest2)
      | _ => none
    | '.' :: rest => some (.cls .dot, rest)
    | '\\' :: e :: rest => (pEsc e).map (fun k => (.cls k, rest))
    | c :: rest => if isMetaCh c then none else some (.cls (.lit c), rest)

end

/-- Parse a full pattern body (no anchors); `none` models a compile panic. -/
def parseRE (cs : List Char) : Option RE :=
  match parseA (4 * cs.length + 8) cs with
  | some (r, []) => some r
  | _ => none

/-! ## Compiled patterns -/

/-- A compiled pattern: the regex plus whether the match is anchored at the
start of the candidate.  `fromStart`/`wholeOnly` record how the Go code uses
the compiled regex: `addOneRegex` wraps literal patterns in `^...$` (a whole
match), and a `~`-pattern's own leading `^` anchors the search at the start. -/
structure Compiled where
  re : RE
  fromStart : Bool
  wholeOnly : Bool
deriving DecidableEq, Repr

def Compiled.run (m : Compiled) (t : String) : Bool :=
  if m.wholeOnly then m.re.matchWhole t.data
  else if m.fromStart then m.re.matchFromStart t.data
  else m.re.searchAny t.data

/-- Model of `regexp.MustCompile("(?i)^" + p + "$")` as used by `addOneRegex`
for a pattern without the `~` marker: under search semantics the two anchors
make it a whole-string match. -/
def compileFullCI (cs : List Char) : Option Compiled :=
  (parseRE cs).map (fun r => ⟨r, true, true⟩)

/-- Model of `regexp.MustCompile("(?i)" + p)` used with search semantics
(`MatchString` / `FindStringIndex`): a leading `^` in `p` anchors the
match at the start of the candidate. -/
def compileSearchCI (cs : List Char) : Option Compiled :=
  match cs with
  | '^' :: rest => (parseRE rest).map (fun r => ⟨r, true, false⟩)
  | _ => (parseRE cs).map (fun r => ⟨r, false, false⟩)


/-! ## The `pkg/filter` package: tables, rules, the filter engine

Embeds the `filter` package included in the repository sources: `Table`,
`Rules`, `Rules.ToLower`, `Filter`, `New`, `genRegexMap`, `addOneRegex`,
`ApplyOn`, `filterOnSchemas`, `filterOnTables`, `matchDB`, `matchTable`,
`matchString`.  Go nil pointers (`*Rules`, `*Filter`) are modelled with
`Option`; a run-time panic inside `New` is modelled by `Except GoPanic`. -/

/-- Model of `strings.ToLower` restricted to ASCII case folding
(`Char.toLower`), which is all the repository's identifiers exercise. -/
def lowerStr (s : String) : String :=
  ⟨s.data.map Char.toLower⟩

/-- Qualified table name (`filter.Table`). -/
structure Table where
  Schema : String
  Name : String
deriving DecidableEq, Repr

/-- Filter rules (`filter.Rules`).  Go's `[]*Table` slices are value lists. -/
structure Rules where
  DoTables : List Table
  DoDBs : List String
  IgnoreTables : List Table
  IgnoreDBs : List String
deriving DecidableEq, Repr

/-- Model of `Rules.ToLower` on a non-nil receiver: every entry is folded to
lowercase in place (the nil receiver case is the identity on `none`). -/
def Rules.toLowerRules : Option Rules → Option Rules
  | none => none
  | some r => some
      { DoTables := r.DoTables.map (fun t => ⟨lowerStr t.Schema, lowerStr t.Name⟩)
        DoDBs := r.DoDBs.map lowerStr
        IgnoreTables := r.IgnoreTables.map (fun t => ⟨lowerStr t.Schema, lowerStr t.Name⟩)
        IgnoreDBs := r.IgnoreDBs.map lowerStr }

/-- The two run-time panics `New` can hit: indexing `originStr[0]` on an
empty pattern, and `regexp.MustCompile` on a malformed pattern. -/
inductive GoPanic where
  | indexOutOfRange
  | badRegex
deriving DecidableEq, Repr

/-- The pattern cache: pattern string to compiled matcher, insertion order. -/
abbrev PatternMap := List (String × Compiled)

/-- The filter engine (`filter.Filter`): compiled-pattern cache plus rules. -/
structure GoFilter where
  patternMap : PatternMap
  rules : Option Rules
deriving DecidableEq, Repr

/-- Compilation performed by `addOneRegex` on a non-empty pattern: a pattern
not starting with `~` compiles as `(?i)^pattern$` (whole match), a
`~`-pattern compiles its remainder as `(?i)...` under search semantics. -/
def compilePattern (p : String) : Option Compiled :=
  match p.data with
  | [] => none
  | c :: rest => if c != '~' then compileFullCI (c :: rest) else compileSearchCI rest

/-- Model of `Filter.addOneRegex`: skip patterns already in the cache, panic
on the empty pattern (`originStr[0]`) or on a malformed one (`MustCompile`),
otherwise extend the cache. -/
def addOneRegex (pm : PatternMap) (originStr : String) : Except GoPanic PatternMap :=
  if (pm.lookup originStr).isSome then .ok pm
  else if originStr = "" then .error .indexOutOfRange
  else
    match compilePattern originStr with
    | some m => .ok (pm ++ [(originStr, m)])
    | none => .error .badRegex

/-- The pattern strings of a rule set in the order `genRegexMap` visits them:
`DoDBs`, then each `DoTables` entry's schema and name, then `IgnoreDBs`,
then each `IgnoreTables` entry's schema and name. -/
def ruleStrings (r : Rules) : List String :=
  r.DoDBs ++ (r.DoTables.map (fun t => [t.Schema, t.Name])).flatten ++
    r.IgnoreDBs ++ (r.IgnoreTables.map (fun t => [t.Schema, t.Name])).flatten

/-- Model of `Filter.genRegexMap`: fold `addOneRegex` over every rule
pattern; a nil rule set installs nothing. -/
def genRegexMap (rules : Option Rules) : Except GoPanic PatternMap :=
  match rules with
  | none => .ok []
  | some r => (ruleStrings r).foldlM addOneRegex []

/-- Model of `filter.New`: record the rules and build the pattern cache;
an `.error` result models a Go panic escaping `New`. -/
def filterNew (rules : Option Rules) : Except GoPanic GoFilter :=
  (genRegexMap rules).map (fun pm => ⟨pm, rules⟩)

/-- Model of `Filter.matchString`: use the compiled matcher when the pattern
is in the cache, otherwise fall back to raw string equality. -/
def GoFilter.matchString (f : GoFilter) (pattern t : String) : Bool :=
  match f.patternMap.lookup pattern with
  | some re => re.run t
  | none => pattern == t

/-- Model of `Filter.matchDB`: does `a` match any of the DB patterns? -/
def GoFilter.matchDB (f : GoFilter) (patternDBS : List String) (a : String) : Bool :=
  patternDBS.any (fun b => f.matchString b a)

/-- Model of `Filter.matchTable`: does `tb` match any `(schema, name)`
pattern pair, both components independently? -/
def GoFilter.matchTable (f : GoFilter) (patternTBS : List Table) (tb : Table) : Bool :=
  patternTBS.any (fun ptb => f.matchString ptb.Schema tb.Schema && f.matchString ptb.Name tb.Name)

def GoFilter.findMatchedDoDBs (f : GoFilter) (r : Rules) (tb : Table) : Bool :=
  f.matchDB r.DoDBs tb.Schema

def GoFilter.findMatchedIgnoreDBs (f : GoFilter) (r : Rules) (tb : Table) : Bool :=
  f.matchDB r.IgnoreDBs tb.Schema

def GoFilter.findMatchedDoTables (f : GoFilter) (r : Rules) (tb : Table) : Bool :=
  f.matchTable r.DoTables tb

def GoFilter.findMatchedIgnoreTables (f : GoFilter) (r : Rules) (tb : Table) : Bool :=
  f.matchTable r.IgnoreTables tb

/-- Model of `Filter.filterOnSchemas` (the rules are the dereferenced
`f.rules`, non-nil on every call path). -/
def GoFilter.filterOnSchemas (f : GoFilter) (r : Rules) (tb : Table) : Bool :=
  if r.DoDBs.length > 0 then
    if !(f.findMatchedDoDBs r tb) then false else true
  else if r.IgnoreDBs.length > 0 then
    if f.findMatchedIgnoreDBs r tb then false else true
  else true

/-- Model of `Filter.filterOnTables`. -/
def GoFilter.filterOnTables (f : GoFilter) (r : Rules) (tb : Table) : Bool :=
  if tb.Name.length = 0 then true
  else if r.DoTables.length > 0 && f.findMatchedDoTables r tb then true
  else if r.IgnoreTables.length > 0 && f.findMatchedIgnoreTables r tb then false
  else r.DoTables.length == 0

/-- Model of `Filter.ApplyOn`: a nil filter or nil rules returns the input
unchanged; otherwise keep exactly the tables passing both gates, in order. -/
def applyOn : Option GoFilter → List Table → List Table
  | none, stbs => stbs
  | some f, stbs =>
    match f.rules with
    | none => stbs
    | some r => stbs.filter (fun tb => f.filterOnSchemas r tb && f.filterOnTables r tb)

/-! ## `syncer/filter.go`: built-in skip patterns and the event filters -/

/-- The fixed list of built-in skip patterns, exactly as in the source. -/
def builtInSkipDDLs : List String :=
  [ "^#",
    "^SAVEPOINT",
    "^FLUSH",
    "^OPTIMIZE\\s+TABLE",
    "^ANALYZE\\s+TABLE",
    "^REPAIR\\s+TABLE",
    "^DROP\\s+(\\/\\*\\!40005\\s+)?TEMPORARY\\s+(\\*\\/\\s+)?TABLE",
    "^CREATE\\s+(DEFINER\\s?=.+?)?TRIGGER",
    "^DROP\\s+TRIGGER",
    "^DROP\\s+PROCEDURE",
    "^CREATE\\s+(DEFINER\\s?=.+?)?PROCEDURE",
    "^ALTER\\s+PROCEDURE",
    "^CREATE\\s*(OR REPLACE)?\\s+(ALGORITHM\\s?=.+?)?(DEFINER\\s?=.+?)?\\s+(SQL SECURITY DEFINER)?VIEW",
    "^DROP\\s+VIEW",
    "^ALTER\\s+(ALGORITHM\\s?=.+?)?(DEFINER\\s?=.+?)?(SQL SECURITY DEFINER)?VIEW",
    "^CREATE\\s+(AGGREGATE)?\\s*?FUNCTION",
    "^CREATE\\s+(DEFINER\\s?=.+?)?FUNCTION",
    "^ALTER\\s+FUNCTION",
    "^DROP\\s+FUNCTION",
    "^CREATE\\s+TABLESPACE",
    "^ALTER\\s+TABLESPACE",
    "^DROP\\s+TABLESPACE",
    "^GRANT",
    "^REVOKE",
    "^CREATE\\s+USER",
    "^ALTER\\s+USER",
    "^RENAME\\s+USER",
    "^DROP\\s+USER",
    "^SET\\s+PASSWORD",
    "^ALTER DATABASE" ]

/-- Model of `builtInSkipDDLPatterns.FindStringIndex(sql) != nil`: the source
joins the patterns with `|` into one `(?i)` regex and searches `sql`.  Since
every alternative is anchored with `^` (and the multiline flag is off), the
joined search succeeds exactly when some pattern matches a prefix of `sql`,
which is how we state it. -/
def builtInSkipMatch (sql : String) : Bool :=
  builtInSkipDDLs.any (fun p =>
    match compileSearchCI p.data with
    | some m => m.run sql
    | none => false)

/-- Event-type arguments of the external binlog filter (`bf.EventType`
values used by this file). -/
inductive BfEvent where
  | NullEvent
  | InsertEvent
  | UpdateEvent
  | DeleteEvent
deriving DecidableEq, Repr

/-- Actions returned by the external binlog filter. -/
inductive BfAction where
  | Ignore
  | DoIt
deriving DecidableEq, Repr

/-- The external fine-grained binlog filter (`s.binlogFilter.Filter`),
taking schema, table, DML event, DDL event and SQL text; `Except` carries
its Go error result. -/
abbrev BinlogFilter := String → String → BfEvent → BfEvent → String → Except String BfAction

/-- Replication wire event subtypes (`replication.EventType`): the nine row
event constructors the source names, plus `other` for every remaining
subtype of the wire enumeration. -/
inductive EventType where
  | WRITE_ROWS_EVENTv0
  | WRITE_ROWS_EVENTv1
  | WRITE_ROWS_EVENTv2
  | UPDATE_ROWS_EVENTv0
  | UPDATE_ROWS_EVENTv1
  | UPDATE_ROWS_EVENTv2
  | DELETE_ROWS_EVENTv0
  | DELETE_ROWS_EVENTv1
  | DELETE_ROWS_EVENTv2
  | other (code : Nat)
deriving DecidableEq, Repr

/-- The `switch eventType` mapping inside `skipDMLEvent`; `none` is the
`default` branch (an unrecognized subtype). -/
def toBfEvent : EventType → Option BfEvent
  | .WRITE_ROWS_EVENTv0 => some .InsertEvent
  | .WRITE_ROWS_EVENTv1 => some .InsertEvent
  | .WRITE_ROWS_EVENTv2 => some .InsertEvent
  | .UPDATE_ROWS_EVENTv0 => some .UpdateEvent
  | .UPDATE_ROWS_EVENTv1 => some .UpdateEvent
  | .UPDATE_ROWS_EVENTv2 => some .UpdateEvent
  | .DELETE_ROWS_EVENTv0 => some .DeleteEvent
  | .DELETE_ROWS_EVENTv1 => some .DeleteEvent
  | .DELETE_ROWS_EVENTv2 => some .DeleteEvent
  | .other _ => none

/-- The syncer state the filter functions consult: the black/white-list
filter engine and the optional external binlog filter. -/
structure Syncer where
  bwList : Option GoFilter
  binlogFilter : Option BinlogFilter

/-- Go functions returning `(bool, error)` are modelled as a pair of the
boolean and an optional error message (`none` is the nil error). -/
abbrev GoBoolErr := Bool × Option String

/-- The `for _, table := range tables` loop at the end of `skipQuery`:
first `Ignore` action wins, an evaluator error aborts with `(false, err)`,
an exhausted loop yields `(false, nil)`. -/
def skipQueryLoop (bff : BinlogFilter) (sql : String) : List Table → GoBoolErr
  | [] => (false, none)
  | t :: ts =>
    match bff t.Schema t.Name .NullEvent .NullEvent sql with
    | .error e => (false, some ("skip query " ++ sql ++ " on " ++ t.Schema ++ "." ++ t.Name ++ ": " ++ e))
    | .ok a => if a == BfAction.Ignore then (true, none) else skipQueryLoop bff sql ts

/-- Model of `Syncer.skipQuery`.  `isSystemSchema` abstracts the external
`filter.IsSystemSchema` predicate.  Decision chain exactly as in the source:
built-in skip patterns, the system-schema gate, the black/white-list gate,
then the optional external binlog filter (once with empty names when the
statement has no table scope, then per table). -/
def Syncer.skipQuery (isSystemSchema : String → Bool) (s : Syncer)
    (tables : List Table) (sql : String) : GoBoolErr :=
  if builtInSkipMatch sql then (true, none)
  else if tables.any (fun t => isSystemSchema t.Schema) then (true, none)
  else if tables.length > 0 && (applyOn s.bwList tables).length = 0 then (true, none)
  else
    match s.binlogFilter with
    | none => (false, none)
    | some bff =>
      if tables.length = 0 then
        match bff "" "" .NullEvent .NullEvent sql with
        | .error e => (false, some ("skip query " ++ sql ++ ": " ++ e))
        | .ok a => if a == BfAction.Ignore then (true, none) else skipQueryLoop bff sql tables
      else skipQueryLoop bff sql tables

/-- Model of `Syncer.skipDMLEvent`: system-schema gate, lowercase the names,
black/white-list gate on the singleton table, then — only when an external
binlog filter is configured — map the wire subtype (`default` is a hard
error) and consult the filter. -/
def Syncer.skipDMLEvent (isSystemSchema : String → Bool) (s : Syncer)
    (schema table : String) (eventType : EventType) : GoBoolErr :=
  if isSystemSchema schema then (true, none)
  else
    let schemaL := lowerStr schema
    let tableL := lowerStr table
    if (applyOn s.bwList [⟨schemaL, tableL⟩]).length = 0 then (true, none)
    else
      match s.binlogFilter with
      | none => (false, none)
      | some bff =>
        match toBfEvent eventType with
        | none => (false, some "[syncer] invalid replication event type")
        | some et =>
          match bff schemaL tableL et .NullEvent "" with
          | .error e => (false, some ("skip row event on " ++ schemaL ++ "." ++ tableL ++ ": " ++ e))
          | .ok action => (action == BfAction.Ignore, none)

/-! ## `checker/checker.go`: the pre-check orchestrator unit

The checker talks to external collaborators (database handles, the check
runner `check.Do`, JSON marshalling, contexts and channels).  We embed its
decision logic over explicit state: connections are opaque handles, the
aggregate produced by the external `check.Do` is an input, the derived
context's done-ness at the post-run check is an input boolean, and the
blocking channel send is modelled as the list of emitted results. -/

/-- An opaque database connection handle. -/
structure Conn where
  id : Nat
deriving DecidableEq, Repr

/-- One source instance's owned connections (`mysqlInstance`); a `none`
entry is a nil `*sql.DB`. -/
structure MysqlInstance where
  sourceDB : Option Conn
  targetDB : Option Conn
deriving DecidableEq, Repr

/-- Aggregate summary of one check run (`check.Summary` of the external
check package, as consumed by this unit). -/
structure Summary where
  passed : Bool
  total : Nat
  successful : Nat
  failed : Nat
  warning : Nat
deriving DecidableEq, Repr

/-- Result blob of the external `check.Do` (`*check.Results`): the fields
this unit reads. -/
structure CheckResults where
  summary : Summary
deriving DecidableEq, Repr

/-- `pb.ErrorType` values. -/
inductive ErrorType where
  | UnknownError
  | ExecSQL
  | CheckFailed
deriving DecidableEq, Repr

/-- `pb.ProcessError`. -/
structure ProcessError where
  errorType : ErrorType
  msg : String
deriving DecidableEq, Repr

/-- `pb.ProcessResult`; `detail` carries the marshalled check results. -/
structure ProcessResult where
  isCanceled : Bool
  errors : List ProcessError
  detail : CheckResults
deriving DecidableEq, Repr

/-- `pb.CheckStatus` as filled by `Checker.Status` (the `int32` casts never
overflow for check counts, so the counts stay `Nat`). -/
structure CheckStatus where
  passed : Bool
  total : Nat
  failed : Nat
  successful : Nat
  warning : Nat
  detail : CheckResults
deriving DecidableEq, Repr

/-- The checker's mutable state: the atomic closed flag, the owned
instances, and the last stored result (`c.result.detail`, nil initially). -/
structure CheckerState where
  closed : Bool
  instances : List MysqlInstance
  resultDetail : Option CheckResults
deriving DecidableEq, Repr

/-- Model of `NewChecker`: closed flag unset, no stored result. -/
def newChecker (instances : List MysqlInstance) : CheckerState :=
  ⟨false, instances, none⟩

/-- Model of `Checker.Process`.  `result` is what the external `check.Do`
returned under the one-minute derived context and `ctxDoneAtCheck` is
whether that context was already done at the `select` after the run.  The
returned list is everything sent on the result channel. -/
def checkerProcess (st : CheckerState) (result : CheckResults)
    (ctxDoneAtCheck : Bool) : CheckerState × List ProcessResult :=
  let errs : List ProcessError :=
    if !result.summary.passed then
      [⟨.CheckFailed, "check was failed, please see detail"⟩]
    else []
  let isCanceled := ctxDoneAtCheck
  ({ st with resultDetail := some result }, [⟨isCanceled, errs, result⟩])

/-- Model of `Checker.Status`: reading `c.result.detail` under the read
lock and dereferencing it.  A `none` result models the nil-pointer panic on
`res.Summary` when no `Process` run has stored a result yet.  `Status`
performs no writes, so it is a pure function of the state. -/
def checkerStatus (st : CheckerState) : Option CheckStatus :=
  match st.resultDetail with
  | none => none
  | some res =>
    some ⟨res.summary.passed, res.summary.total, res.summary.failed,
      res.summary.successful, res.summary.warning, res⟩

/-- The connections `Checker.Close` closes, in loop order: per instance the
non-nil source connection then the non-nil target connection. -/
def ownedConns (st : CheckerState) : List Conn :=
  (st.instances.map (fun i => i.sourceDB.toList ++ i.targetDB.toList)).flatten

/-- Model of `Checker.Close`.  `closeDB` gives each connection's close
error (`none` is a nil error, errors are only logged).  Returns the new
state, the connections actually closed, and the error log lines. -/
def checkerClose (closeDB : Conn → Option String) (st : CheckerState) :
    CheckerState × List Conn × List String :=
  if st.closed then (st, [], [])
  else
    ({ st with closed := true }, ownedConns st,
      (ownedConns st).filterMap (fun c => (closeDB c).map (fun e => "close db error " ++ e)))

/-! ## Claim C7: `ApplyOn` is idempotent and nil is a no-op -/

/-- C7: for every filter (any rule set, including the nil filter and nil
rules), `ApplyOn` is idempotent, and a nil `Filter` or nil `Rules` returns
the input table list unchanged. -/
theorem applyOn_idempotent :
    ∀ (f : Option GoFilter) (tbs : List Table),
      applyOn f (applyOn f tbs) = applyOn f tbs ∧
      applyOn none tbs = tbs ∧
      (∀ pm : PatternMap, applyOn (some ⟨pm, none⟩) tbs = tbs) := by
  intro f tbs
  refine ⟨?_, rfl, fun pm => rfl⟩
  match f with
  | none => rfl
  | some fl =>
    match h : fl.rules with
    | none => simp [applyOn, h]
    | some r => simp [applyOn, h, List.filter_filter]

/-! ## Claim C6: `Checker.Process` emits exactly one result -/

/-- C6: each invocation of `Process` emits exactly one `ProcessResult`; its
error list holds exactly one `CheckFailed` entry when the aggregated summary
is not passed and is empty when it is passed; `isCanceled` is exactly the
done-ness of the derived context at the post-run check. -/
theorem checkerProcess_single_result :
    ∀ (st : CheckerState) (result : CheckResults) (ctxDone : Bool),
      (checkerProcess st result ctxDone).2.length = 1 ∧
      ∀ pr ∈ (checkerProcess st result ctxDone).2,
        pr.isCanceled = ctxDone ∧
        pr.errors.length = (if result.summary.passed then 0 else 1) ∧
        pr.errors.countP (fun e => e.errorType == ErrorType.CheckFailed) =
          (if result.summary.passed then 0 else 1) := by
  intro st result ctxDone
  refine ⟨rfl, ?_⟩
  intro pr hpr
  simp only [checkerProcess, List.mem_singleton] at hpr
  subst hpr
  cases hp : result.summary.passed <;> simp [hp, List.countP, List.countP.go]

/-- Witness for C6 at a concrete failing aggregate. -/
theorem checkerProcess_single_result_witness :
    (⟨true, [⟨ErrorType.CheckFailed, "check was failed, please see detail"⟩],
        ⟨⟨false, 3, 2, 1, 0⟩⟩⟩ : ProcessResult).isCanceled = true ∧
      ([⟨ErrorType.CheckFailed, "check was failed, please see detail"⟩] :
          List ProcessError).length = (if (false : Bool) then 0 else 1) ∧
      ([⟨ErrorType.CheckFailed, "check was failed, please see detail"⟩] :
          List ProcessError).countP (fun e => e.errorType == ErrorType.CheckFailed) =
        (if (false : Bool) then 0 else 1) :=
  (checkerProcess_single_result (newChecker []) ⟨⟨false, 3, 2, 1, 0⟩⟩ true).2 _ (by decide)

/-! ## Claim C9: `Checker.Close` closes connections at most once -/

/-- C9: `Close` is idempotent under repeated invocation: on a not-yet-closed
checker it closes exactly the owned non-nil connections and sets the closed
flag; once the flag is set, a subsequent `Close` returns immediately and
closes nothing; and this holds for every outcome of the per-connection
close calls, whose errors are only logged. -/
theorem checkerClose_close_once :
    ∀ (closeDB closeDB2 : Conn → Option String) (st : CheckerState),
      (st.closed = false →
        (checkerClose closeDB st).1.closed = true ∧
        (checkerClose closeDB st).2.1 = ownedConns st) ∧
      (st.closed = true → checkerClose closeDB st = (st, [], [])) ∧
      (checkerClose closeDB2 (checkerClose closeDB st).1).2.1 = [] := by
  intro closeDB closeDB2 st
  cases h : st.closed <;> simp [checkerClose, h]

/-- Witness for C9: one open and one already-closed checker with one
instance owning two connections, under a failing close call. -/
theorem checkerClose_close_once_witness :
    ((false : Bool) = false →
      (checkerClose (fun _ => some "boom") ⟨false, [⟨some ⟨1⟩, some ⟨2⟩⟩], none⟩).1.closed = true ∧
      (checkerClose (fun _ => some "boom") ⟨false, [⟨some ⟨1⟩, some ⟨2⟩⟩], none⟩).2.1 =
        ownedConns ⟨false, [⟨some ⟨1⟩, some ⟨2⟩⟩], none⟩) ∧
    ((false : Bool) = true →
      checkerClose (fun _ => some "boom") ⟨false, [⟨some ⟨1⟩, some ⟨2⟩⟩], none⟩ =
        (⟨false, [⟨some ⟨1⟩, some ⟨2⟩⟩], none⟩, [], [])) ∧
    (checkerClose (fun _ => none)
      (checkerClose (fun _ => some "boom") ⟨false, [⟨some ⟨1⟩, some ⟨2⟩⟩], none⟩).1).2.1 = [] :=
  checkerClose_close_once (fun _ => some "boom") (fun _ => none) ⟨false, [⟨some ⟨1⟩, some ⟨2⟩⟩], none⟩

/-! ## Claim C8 (corrected): `Checker.Status` and the nil stored result -/

/-- C8 counterexample: on a freshly constructed checker, before any
`Process` invocation has stored a result, `c.result.detail` is nil and
`Status()` dereferences it (`res.Summary.Passed`), which panics (modelled by
`none`) — so `Status` cannot be invoked at any time without failure. -/
theorem checkerStatus_initial_counterexample :
    checkerStatus (newChecker []) = none := rfl

/-- C8 amended: once some `Process` run has stored an aggregate (in
particular after a failing check), `Status` returns exactly the stored
pass/fail/warning/total counts plus detail; being a pure function of the
state, it does not modify the stored result. -/
theorem checkerStatus_last_aggregate :
    ∀ (st : CheckerState) (res result : CheckResults) (ctxDone : Bool),
      (st.resultDetail = some res →
        checkerStatus st = some ⟨res.summary.passed, res.summary.total, res.summary.failed,
          res.summary.successful, res.summary.warning, res⟩) ∧
      checkerStatus (checkerProcess st result ctxDone).1 =
        some ⟨result.summary.passed, result.summary.total, result.summary.failed,
          result.summary.successful, result.summary.warning, result⟩ := by
  intro st res result ctxDone
  constructor
  · intro h
    simp [checkerStatus, h]
  · simp [checkerStatus, checkerProcess]

/-- Witness for C8 at a concrete stored failing aggregate. -/
theorem checkerStatus_last_aggregate_witness :
    checkerStatus ⟨false, [], some ⟨⟨false, 3, 2, 1, 0⟩⟩⟩ =
      some ⟨false, 3, 1, 2, 0, ⟨⟨false, 3, 2, 1, 0⟩⟩⟩ :=
  (checkerStatus_last_aggregate ⟨false, [], some ⟨⟨false, 3, 2, 1, 0⟩⟩⟩
    ⟨⟨false, 3, 2, 1, 0⟩⟩ ⟨⟨true, 0, 0, 0, 0⟩⟩ false).1 rfl

/-! ## Claim C3: built-in skip patterns are unconditional -/

/-- C3: any SQL text matched by the built-in skip patterns makes `skipQuery`
return `(true, nil)` before and independently of the system-schema gate,
the black/white-list rules and any configured binlog filter; in particular
the five administrative statements below are skipped for every rule set and
table list. -/
theorem skipQuery_builtin_unconditional :
    ∀ (isSystemSchema : String → Bool) (s : Syncer) (tables : List Table) (sql : String),
      (builtInSkipMatch sql = true →
        s.skipQuery isSystemSchema tables sql = (true, none)) ∧
      s.skipQuery isSystemSchema tables "SAVEPOINT sp1" = (true, none) ∧
      s.skipQuery isSystemSchema tables "FLUSH LOGS" = (true, none) ∧
      s.skipQuery isSystemSchema tables "OPTIMIZE TABLE t" = (true, none) ∧
      s.skipQuery isSystemSchema tables "CREATE TRIGGER tg ..." = (true, none) ∧
      s.skipQuery isSystemSchema tables "GRANT ALL ON *.*" = (true, none) := by
  intro isSystemSchema s tables sql
  have key : ∀ q : String, builtInSkipMatch q = true →
      s.skipQuery isSystemSchema tables q = (true, none) := by
    intro q hq
    simp [Syncer.skipQuery, hq]
  exact ⟨key sql, key _ (by decide), key _ (by decide), key _ (by decide),
    key _ (by decide), key _ (by decide)⟩

/-- Witness for C3: a concrete syncer carrying rules that would otherwise
allow the table, on the savepoint statement. -/
theorem skipQuery_builtin_unconditional_witness :
    Syncer.skipQuery (fun _ => false) ⟨none, none⟩ [⟨"db", "tbl"⟩] "SAVEPOINT sp1" =
      (true, none) :=
  (skipQuery_builtin_unconditional (fun _ => false) ⟨none, none⟩ [⟨"db", "tbl"⟩]
    "SAVEPOINT sp1").1 (by decide)

/-! ## Claim C4 (corrected): `skipDMLEvent` subtype mapping -/

/-- C4 counterexample: with no binlog filter configured, a non-system schema
and a table surviving the (absent) black/white-list, an unrecognized wire
subtype makes `skipDMLEvent` return `(false, nil)` — no error at all —
because the `binlogFilter == nil` early return precedes the subtype switch. -/
theorem skipDMLEvent_nil_filter_counterexample :
    Syncer.skipDMLEvent (fun _ => false) ⟨none, none⟩ "foo" "bar" (EventType.other 0) =
      (false, none) := rfl

/-- C4 amended: the wire subtypes map exactly as claimed
(`WRITE_ROWS_*`→Insert, `UPDATE_ROWS_*`→Update, `DELETE_ROWS_*`→Delete,
everything else to the `default` branch), and — when a binlog filter is
configured — an unrecognized subtype for a non-system schema surviving the
table filter is a hard error `(false, non-nil)` while recognized subtypes
are passed to the filter under the mapping; with no binlog filter
configured, `skipDMLEvent` returns `(false, nil)` for every subtype once
the gates pass. -/
theorem skipDMLEvent_subtype_mapping :
    (toBfEvent .WRITE_ROWS_EVENTv0 = some .InsertEvent ∧
      toBfEvent .WRITE_ROWS_EVENTv1 = some .InsertEvent ∧
      toBfEvent .WRITE_ROWS_EVENTv2 = some .InsertEvent) ∧
    (toBfEvent .UPDATE_ROWS_EVENTv0 = some .UpdateEvent ∧
      toBfEvent .UPDATE_ROWS_EVENTv1 = some .UpdateEvent ∧
      toBfEvent .UPDATE_ROWS_EVENTv2 = some .UpdateEvent) ∧
    (toBfEvent .DELETE_ROWS_EVENTv0 = some .DeleteEvent ∧
      toBfEvent .DELETE_ROWS_EVENTv1 = some .DeleteEvent ∧
      toBfEvent .DELETE_ROWS_EVENTv2 = some .DeleteEvent) ∧
    (∀ n, toBfEvent (.other n) = none) ∧
    (∀ (sys : String → Bool) (bff : BinlogFilter) (fl : Option GoFilter)
        (schema table : String) (e : EventType),
      sys schema = false →
      (applyOn fl [⟨lowerStr schema, lowerStr table⟩]).length ≠ 0 →
      (toBfEvent e = none →
        Syncer.skipDMLEvent sys ⟨fl, some bff⟩ schema table e =
          (false, some "[syncer] invalid replication event type")) ∧
      (∀ et, toBfEvent e = some et →
        Syncer.skipDMLEvent sys ⟨fl, some bff⟩ schema table e =
          (match bff (lowerStr schema) (lowerStr table) et .NullEvent "" with
           | .error er => (false, some ("skip row event on " ++ lowerStr schema ++ "." ++
               lowerStr table ++ ": " ++ er))
           | .ok action => (action == BfAction.Ignore, none))) ∧
      Syncer.skipDMLEvent sys ⟨fl, none⟩ schema table e = (false, none)) := by
  refine ⟨⟨rfl, rfl, rfl⟩, ⟨rfl, rfl, rfl⟩, ⟨rfl, rfl, rfl⟩, fun n => rfl, ?_⟩
  intro sys bff fl schema table e hsys hlen
  refine ⟨?_, ?_, ?_⟩
  · intro hnone
    simp [Syncer.skipDMLEvent, hsys, hlen, hnone]
  · intro et het
    simp [Syncer.skipDMLEvent, hsys, hlen, het]
  · simp [Syncer.skipDMLEvent, hsys, hlen]

/-- Witness for C4 at a concrete configured filter and unrecognized
subtype: the hard error is observed. -/
theorem skipDMLEvent_subtype_mapping_witness :
    Syncer.skipDMLEvent (fun _ => false)
        ⟨none, some (fun _ _ _ _ _ => .ok BfAction.DoIt)⟩ "foo" "bar" (EventType.other 5) =
      (false, some "[syncer] invalid replication event type") :=
  ((skipDMLEvent_subtype_mapping.2.2.2.2 (fun _ => false)
      (fun _ _ _ _ _ => .ok BfAction.DoIt) none "foo" "bar" (EventType.other 5)
      rfl (by decide)).1) rfl

/-! ## Case-insensitivity of the engine in the candidate

`Char.toLower` folds only ASCII letters; the lemmas below show that every
character class of the engine, and hence every compiled matcher, cannot
distinguish two candidate strings with the same lowercase image. -/

theorem char_toNat_ofNat_of_lt (n : Nat) (h : n < 55296) : (Char.ofNat n).toNat = n := by
  have hv : n.isValidChar := Or.inl h
  rw [Char.ofNat, dif_pos hv]
  simp [Char.ofNatAux, Char.toNat, UInt32.toNat]

theorem char_toLower_cases (c : Char) :
    (65 ≤ c.toNat ∧ c.toNat ≤ 90 ∧ c.toLower.toNat = c.toNat + 32) ∨
    (c.toLower = c ∧ ¬(65 ≤ c.toNat ∧ c.toNat ≤ 90)) := by
  by_cases h : 65 ≤ c.toNat ∧ c.toNat ≤ 90
  · left
    refine ⟨h.1, h.2, ?_⟩
    have hl : c.toLower = Char.ofNat (c.toNat + 32) := by
      rw [Char.toLower]
      simp only [ge_iff_le]
      rw [if_pos ⟨h.1, h.2⟩]
    rw [hl, char_toNat_ofNat_of_lt]
    omega
  · right
    refine ⟨?_, h⟩
    rw [Char.toLower]
    simp only [ge_iff_le]
    rw [if_neg h]

/-- Two characters with the same lowercase image have equal code points or
are the upper/lower variants of one ASCII letter. -/
theorem toLower_toNat_rel {c₁ c₂ : Char} (h : c₁.toLower = c₂.toLower) :
    c₁.toNat = c₂.toNat ∨
    (65 ≤ c₁.toNat ∧ c₁.toNat ≤ 90 ∧ c₂.toNat = c₁.toNat + 32) ∨
    (65 ≤ c₂.toNat ∧ c₂.toNat ≤ 90 ∧ c₁.toNat = c₂.toNat + 32) := by
  have h' : c₁.toLower.toNat = c₂.toLower.toNat := by rw [h]
  rcases char_toLower_cases c₁ with ⟨a1, b1, e1⟩ | ⟨e1, n1⟩ <;>
    rcases char_toLower_cases c₂ with ⟨a2, b2, e2⟩ | ⟨e2, n2⟩
  · omega
  · rw [e2] at h'
    omega
  · rw [e1] at h'
    omega
  · rw [e1, e2] at h'
    omega

theorem ccSpace_ci {c₁ c₂ : Char} (h : c₁.toLower = c₂.toLower) :
    ccSpace c₁ = ccSpace c₂ := by
  rcases toLower_toNat_rel h with h' | h' | h' <;>
    simp only [ccSpace, decide_eq_decide] <;> omega

theorem ccDigit_ci {c₁ c₂ : Char} (h : c₁.toLower = c₂.toLower) :
    ccDigit c₁ = ccDigit c₂ := by
  rcases toLower_toNat_rel h with h' | h' | h' <;>
    simp only [ccDigit, decide_eq_decide] <;> omega

theorem ccWord_ci {c₁ c₂ : Char} (h : c₁.toLower = c₂.toLower) :
    ccWord c₁ = ccWord c₂ := by
  rcases toLower_toNat_rel h with h' | h' | h' <;>
    simp only [ccWord, decide_eq_decide] <;> omega

theorem ccDot_ci {c₁ c₂ : Char} (h : c₁.toLower = c₂.toLower) :
    ccDot c₁ = ccDot c₂ := by
  rcases toLower_toNat_rel h with h' | h' | h' <;>
    simp only [ccDot, decide_eq_decide] <;> omega

theorem CCls.matches_ci (k : CCls) {c₁ c₂ : Char} (h : c₁.toLower = c₂.toLower) :
    k.matches c₁ = k.matches c₂ := by
  cases k with
  | lit d => simp only [CCls.matches, h]
  | dot => simp only [CCls.matches, ccDot_ci h]
  | space => simp only [CCls.matches, ccSpace_ci h]
  | notSpace => simp only [CCls.matches, ccSpace_ci h]
  | digit => simp only [CCls.matches, ccDigit_ci h]
  | notDigit => simp only [CCls.matches, ccDigit_ci h]
  | word => simp only [CCls.matches, ccWord_ci h]
  | notWord => simp only [CCls.matches, ccWord_ci h]

theorem RE.deriv_ci (r : RE) {c₁ c₂ : Char} (h : c₁.toLower = c₂.toLower) :
    r.deriv c₁ = r.deriv c₂ := by
  induction r with
  | fail => rfl
  | eps => rfl
  | cls k => simp only [RE.deriv, CCls.matches_ci k h]
  | seq a b iha ihb => simp only [RE.deriv, iha, ihb]
  | alt a b iha ihb => simp only [RE.deriv, iha, ihb]
  | star a iha => simp only [RE.deriv, iha]

theorem RE.matchWhole_ci (r : RE) : ∀ s₁ s₂ : List Char,
    s₁.map Char.toLower = s₂.map Char.toLower →
    r.matchWhole s₁ = r.matchWhole s₂ := by
  intro s₁
  induction s₁ generalizing r with
  | nil =>
    intro s₂ h
    cases s₂ with
    | nil => rfl
    | cons c t => simp at h
  | cons c t ih =>
    intro s₂ h
    cases s₂ with
    | nil => simp at h
    | cons c₂ t₂ =>
      simp only [List.map_cons, List.cons.injEq] at h
      rw [RE.matchWhole, RE.matchWhole, RE.deriv_ci r h.1]
      exact ih _ t₂ h.2

theorem RE.matchFromStart_ci (r : RE) : ∀ s₁ s₂ : List Char,
    s₁.map Char.toLower = s₂.map Char.toLower →
    r.matchFromStart s₁ = r.matchFromStart s₂ := by
  intro s₁
  induction s₁ generalizing r with
  | nil =>
    intro s₂ h
    cases s₂ with
    | nil => rfl
    | cons c t => simp at h
  | cons c t ih =>
    intro s₂ h
    cases s₂ with
    | nil => simp at h
    | cons c₂ t₂ =>
      simp only [List.map_cons, List.cons.injEq] at h
      rw [RE.matchFromStart, RE.matchFromStart, RE.deriv_ci r h.1]
      rw [ih _ t₂ h.2]

theorem RE.searchAny_ci (r : RE) : ∀ s₁ s₂ : List Char,
    s₁.map Char.toLower = s₂.map Char.toLower →
    r.searchAny s₁ = r.searchAny s₂ := by
  intro s₁
  induction s₁ with
  | nil =>
    intro s₂ h
    cases s₂ with
    | nil => rfl
    | cons c t => simp at h
  | cons c t ih =>
    intro s₂ h
    cases s₂ with
    | nil => simp at h
    | cons c₂ t₂ =>
      have h' := h
      simp only [List.map_cons, List.cons.injEq] at h'
      rw [RE.searchAny, RE.searchAny, RE.matchFromStart_ci r _ _ h, ih t₂ h'.2]

/-- Strings with the same lowercase image are indistinguishable to every
compiled matcher: matching is case-insensitive in the candidate. -/
theorem Compiled.run_ci (m : Compiled) {s₁ s₂ : String}
    (h : s₁.data.map Char.toLower = s₂.data.map Char.toLower) :
    m.run s₁ = m.run s₂ := by
  unfold Compiled.run
  by_cases hw : m.wholeOnly = true
  · simp only [hw, if_true]
    exact RE.matchWhole_ci m.re _ _ h
  · simp only [Bool.not_eq_true] at hw
    simp only [hw, Bool.false_eq_true, if_false]
    by_cases hf : m.fromStart = true
    · simp only [hf, if_true]
      exact RE.matchFromStart_ci m.re _ _ h
    · simp only [Bool.not_eq_true] at hf
      simp only [hf, Bool.false_eq_true, if_false]
      exact RE.searchAny_ci m.re _ _ h

theorem lowerStr_eq_iff {s₁ s₂ : String} :
    lowerStr s₁ = lowerStr s₂ ↔ s₁.data.map Char.toLower = s₂.data.map Char.toLower := by
  unfold lowerStr
  exact ⟨fun h => by injection h, fun h => by rw [h]⟩

theorem lowerStr_length {s₁ s₂ : String} (h : lowerStr s₁ = lowerStr s₂) :
    s₁.length = s₂.length := by
  have h' := lowerStr_eq_iff.mp h
  have h2 := congrArg List.length h'
  simp only [List.length_map] at h2
  exact h2

/-! ## Invariants of the pattern cache built by `New` -/

theorem except_ok_bind {ε α β : Type} (a : α) (f : α → Except ε β) :
    (Except.ok a >>= f) = f a := rfl

theorem except_error_bind {ε α β : Type} (e : ε) (f : α → Except ε β) :
    (Except.error e >>= f) = Except.error e := rfl

theorem genRegexMap_some (r : Rules) :
    genRegexMap (some r) = (ruleStrings r).foldlM addOneRegex [] := rfl

theorem lookup_append_of_some {pm : PatternMap} (l : PatternMap) {q : String} {m : Compiled}
    (h : pm.lookup q = some m) : (pm ++ l).lookup q = some m := by
  induction pm with
  | nil => simp [List.lookup] at h
  | cons kv tl ih =>
    rw [List.cons_append]
    rw [List.lookup] at h ⊢
    cases hq : q == kv.1 with
    | true => simpa [hq] using h
    | false =>
      simp only [hq] at h ⊢
      exact ih h

theorem lookup_append_of_none {pm : PatternMap} (l : PatternMap) {q : String}
    (h : pm.lookup q = none) : (pm ++ l).lookup q = l.lookup q := by
  induction pm with
  | nil => simp
  | cons kv tl ih =>
    rw [List.cons_append]
    rw [List.lookup] at h ⊢
    cases hq : q == kv.1 with
    | true => simp [hq] at h
    | false =>
      simp only [hq] at h ⊢
      exact ih h

/-- What one successful `addOneRegex` step guarantees: existing entries are
kept, the processed pattern ends up in the cache, patterns other than the
processed one stay absent, a processed empty pattern must already have been
present, and any entry of the new cache is an old entry or the compiled
processed pattern. -/
theorem addOneRegex_ok_spec {pm pm' : PatternMap} {p : String}
    (h : addOneRegex pm p = .ok pm') :
    (∀ q m, pm.lookup q = some m → pm'.lookup q = some m) ∧
    (pm'.lookup p).isSome ∧
    (∀ q, q ≠ p → pm.lookup q = none → pm'.lookup q = none) ∧
    (p = "" → (pm.lookup p).isSome) ∧
    (∀ q m, pm'.lookup q = some m →
      pm.lookup q = some m ∨ (q = p ∧ compilePattern p = some m)) := by
  unfold addOneRegex at h
  by_cases h1 : (pm.lookup p).isSome
  · rw [if_pos h1] at h
    have hpm : pm' = pm := by
      injection h with h
      exact h.symm
    subst hpm
    exact ⟨fun q m hq => hq, h1, fun q _ hq => hq, fun _ => h1, fun q m hq => Or.inl hq⟩
  · rw [if_neg h1] at h
    by_cases h2 : p = ""
    · rw [if_pos h2] at h
      exact absurd h (by simp)
    · rw [if_neg h2] at h
      cases hc : compilePattern p with
      | none => simp [hc] at h
      | some m =>
        rw [hc] at h
        have hpm : pm' = pm ++ [(p, m)] := by
          injection h with h
          exact h.symm
        subst hpm
        have hnone : pm.lookup p = none := by
          cases hl : pm.lookup p with
          | none => rfl
          | some x => simp [hl] at h1
        refine ⟨fun q mq hq => lookup_append_of_some _ hq, ?_, ?_, fun he => absurd he h2, ?_⟩
        · rw [lookup_append_of_none _ hnone]
          simp [List.lookup]
        · intro q hq hqn
          rw [lookup_append_of_none _ hqn]
          have hb : (q == p) = false := beq_eq_false_iff_ne.mpr hq
          simp [List.lookup, hb]
        · intro q mq hq
          cases hl : pm.lookup q with
          | some x =>
            refine Or.inl ?_
            rw [lookup_append_of_some _ hl] at hq
            exact hq
          | none =>
            refine Or.inr ?_
            rw [lookup_append_of_none _ hl] at hq
            rw [List.lookup] at hq
            cases hqp : q == p with
            | false => simp [hqp, List.lookup] at hq
            | true =>
              simp only [hqp] at hq
              injection hq with hq2
              refine ⟨eq_of_beq hqp, ?_⟩
              rw [hq2]

theorem foldlM_addOneRegex_ok :
    ∀ (ps : List String) (pm pm' : PatternMap),
      ps.foldlM addOneRegex pm = .ok pm' →
      (∀ q m, pm.lookup q = some m → pm'.lookup q = some m) ∧
      (∀ p ∈ ps, (pm'.lookup p).isSome) ∧
      (∀ q m, pm'.lookup q = some m →
        pm.lookup q = some m ∨ (q ∈ ps ∧ compilePattern q = some m)) := by
  intro ps
  induction ps with
  | nil =>
    intro pm pm' h
    simp only [List.foldlM_nil] at h
    have hpm : pm' = pm := by
      injection h with h
      exact h.symm
    subst hpm
    exact ⟨fun q m hq => hq, fun p hp => absurd hp (List.not_mem_nil p),
      fun q m hq => Or.inl hq⟩
  | cons p ps ih =>
    intro pm pm' h
    rw [List.foldlM_cons] at h
    cases ha : addOneRegex pm p with
    | error e =>
      rw [ha, except_error_bind] at h
      exact absurd h (by simp)
    | ok pm₁ =>
      rw [ha, except_ok_bind] at h
      obtain ⟨k1, k2, k3, _, k5⟩ := addOneRegex_ok_spec ha
      obtain ⟨j1, j2, j3⟩ := ih pm₁ pm' h
      refine ⟨fun q m hq => j1 q m (k1 q m hq), ?_, ?_⟩
      · intro q hq
        rcases List.mem_cons.mp hq with hq | hq
        · subst hq
          rcases Option.isSome_iff_exists.mp k2 with ⟨m, hm⟩
          exact Option.isSome_iff_exists.mpr ⟨m, j1 q m hm⟩
        · exact j2 q hq
      · intro q m hq
        rcases j3 q m hq with hq' | hq'
        · rcases k5 q m hq' with hq'' | ⟨rfl, hc⟩
          · exact Or.inl hq''
          · exact Or.inr ⟨List.mem_cons_self _ _, hc⟩
        · exact Or.inr ⟨List.mem_cons.mpr (Or.inr hq'.1), hq'.2⟩

theorem foldlM_addOneRegex_total :
    ∀ (ps : List String) (pm : PatternMap),
      (∀ p ∈ ps, (compilePattern p).isSome) →
      ∃ pm', ps.foldlM addOneRegex pm = .ok pm' := by
  intro ps
  induction ps with
  | nil =>
    intro pm _
    exact ⟨pm, rfl⟩
  | cons p ps ih =>
    intro pm hps
    have hp : (compilePattern p).isSome := hps p (List.mem_cons_self _ _)
    have hstep : ∃ pm₁, addOneRegex pm p = .ok pm₁ := by
      unfold addOneRegex
      by_cases h1 : (pm.lookup p).isSome
      · exact ⟨pm, by rw [if_pos h1]⟩
      · have hne : p ≠ "" := by
          intro he
          subst he
          simp [compilePattern] at hp
        rcases Option.isSome_iff_exists.mp hp with ⟨m, hm⟩
        refine ⟨pm ++ [(p, m)], ?_⟩
        rw [if_neg h1, if_neg hne, hm]
    rcases hstep with ⟨pm₁, hstep⟩
    rcases ih pm₁ (fun q hq => hps q (List.mem_cons.mpr (Or.inr hq))) with ⟨pm', hrest⟩
    refine ⟨pm', ?_⟩
    rw [List.foldlM_cons, hstep, except_ok_bind]
    exact hrest

theorem foldlM_addOneRegex_empty_error :
    ∀ (ps : List String) (pm : PatternMap),
      "" ∈ ps → pm.lookup "" = none →
      ∀ pm', ps.foldlM addOneRegex pm ≠ .ok pm' := by
  intro ps
  induction ps with
  | nil =>
    intro pm hmem
    exact absurd hmem (List.not_mem_nil _)
  | cons p ps ih =>
    intro pm hmem hnone pm' h
    rw [List.foldlM_cons] at h
    by_cases hp : p = ""
    · subst hp
      have he : addOneRegex pm "" = .error .indexOutOfRange := by
        unfold addOneRegex
        rw [if_neg (by simp [hnone]), if_pos rfl]
      rw [he, except_error_bind] at h
      exact absurd h (by simp)
    · cases ha : addOneRegex pm p with
      | error e =>
        rw [ha, except_error_bind] at h
        exact absurd h (by simp)
      | ok pm₁ =>
        rw [ha, except_ok_bind] at h
        have hmem' : "" ∈ ps := by
          rcases List.mem_cons.mp hmem with hq | hq
          · exact absurd hq.symm hp
          · exact hq
        have hnone₁ : pm₁.lookup "" = none :=
          (addOneRegex_ok_spec ha).2.2.1 "" (fun he => hp he.symm) hnone
        exact ih pm₁ hmem' hnone₁ pm' h

/-- What a successful `filter.New` guarantees: the rules are recorded and
the cache maps every rule pattern to exactly its compiled matcher. -/
theorem filterNew_ok_spec {r : Rules} {f : GoFilter}
    (h : filterNew (some r) = .ok f) :
    f.rules = some r ∧
    (∀ p ∈ ruleStrings r, (f.patternMap.lookup p).isSome) ∧
    (∀ p ∈ ruleStrings r, f.patternMap.lookup p = compilePattern p) := by
  unfold filterNew at h
  rw [genRegexMap_some] at h
  cases hg : (ruleStrings r).foldlM addOneRegex ([] : PatternMap) with
  | error e =>
    rw [hg] at h
    exact absurd h (by simp [Except.map])
  | ok pm =>
    rw [hg] at h
    have hf : f = ⟨pm, some r⟩ := by
      simp only [Except.map] at h
      injection h with h
      exact h.symm
    subst hf
    obtain ⟨_, k2, k3⟩ := foldlM_addOneRegex_ok _ _ _ hg
    refine ⟨rfl, k2, ?_⟩
    intro p hp
    rcases Option.isSome_iff_exists.mp (k2 p hp) with ⟨m, hm⟩
    rcases k3 p m hm with hq | hq
    · simp [List.lookup] at hq
    · rw [hm, hq.2]

theorem filterNew_total {r : Rules}
    (h : ∀ p ∈ ruleStrings r, (compilePattern p).isSome) :
    ∃ f, filterNew (some r) = .ok f := by
  rcases foldlM_addOneRegex_total (ruleStrings r) [] h with ⟨pm, hpm⟩
  refine ⟨⟨pm, some r⟩, ?_⟩
  unfold filterNew
  rw [genRegexMap_some, hpm]
  rfl

theorem filterNew_empty_error {r : Rules} (h : "" ∈ ruleStrings r) :
    ∃ e, filterNew (some r) = .error e := by
  unfold filterNew
  rw [genRegexMap_some]
  cases hg : (ruleStrings r).foldlM addOneRegex ([] : PatternMap) with
  | error e => exact ⟨e, rfl⟩
  | ok pm =>
    exact absurd hg (foldlM_addOneRegex_empty_error _ [] h rfl pm)

/-! ## Claim C10 (corrected): totality of `filter.New` -/

/-- C10 counterexample: a rule set whose every pattern is non-empty on which
`New` still panics — the pattern `"("` makes `regexp.MustCompile` fail, so
non-emptiness alone does not make `New` total. -/
theorem filterNew_invalid_pattern_counterexample :
    filterNew (some ⟨[], ["("], [], []⟩) = .error .badRegex := rfl

/-- C10 amended: for every rule set whose pattern strings are all non-empty
and compile (accepted by the regex compiler), `New` completes without panic
and installs one compiled matcher per distinct pattern string — anchored
`^pattern$` for plain patterns, search for `~`-patterns, per
`compilePattern` — so `matchString` never falls back to raw case-sensitive
equality for a rule pattern; and any rule set containing an empty pattern
string makes `New` panic via the `originStr[0]` index (`indexOutOfRange` on
the concrete instance) instead of returning an error. -/
theorem filterNew_totality :
    (∀ r : Rules,
      (∀ p ∈ ruleStrings r, p ≠ "" ∧ (compilePattern p).isSome) →
      ∃ f, filterNew (some r) = .ok f ∧ f.rules = some r ∧
        (∀ p ∈ ruleStrings r, f.patternMap.lookup p = compilePattern p) ∧
        (∀ p ∈ ruleStrings r, ∃ m, compilePattern p = some m ∧
          ∀ t, f.matchString p t = m.run t)) ∧
    (∀ r : Rules, "" ∈ ruleStrings r → ∃ e, filterNew (some r) = .error e) ∧
    filterNew (some ⟨[], [""], [], []⟩) = .error .indexOutOfRange := by
  refine ⟨?_, fun r h => filterNew_empty_error h, rfl⟩
  intro r h
  rcases filterNew_total (fun p hp => (h p hp).2) with ⟨f, hf⟩
  obtain ⟨h1, _, h3⟩ := filterNew_ok_spec hf
  refine ⟨f, hf, h1, h3, ?_⟩
  intro p hp
  rcases Option.isSome_iff_exists.mp ((h p hp).2) with ⟨m, hm⟩
  refine ⟨m, hm, ?_⟩
  intro t
  unfold GoFilter.matchString
  rw [h3 p hp, hm]

/-- Witness for C10 at a concrete valid rule set and the concrete empty
pattern. -/
theorem filterNew_totality_witness :
    (∃ f, filterNew (some ⟨[], ["Foo"], [], []⟩) = .ok f ∧
        f.rules = some ⟨[], ["Foo"], [], []⟩ ∧
        (∀ p ∈ ruleStrings ⟨[], ["Foo"], [], []⟩,
          f.patternMap.lookup p = compilePattern p) ∧
        (∀ p ∈ ruleStrings ⟨[], ["Foo"], [], []⟩, ∃ m, compilePattern p = some m ∧
          ∀ t, f.matchString p t = m.run t)) ∧
    (∃ e, filterNew (some ⟨[], [""], [], []⟩) = .error e) :=
  ⟨filterNew_totality.1 ⟨[], ["Foo"], [], []⟩ (by decide),
    filterNew_totality.2.1 ⟨[], [""], [], []⟩ (by decide)⟩

/-! ## Case-insensitive matching through a built filter -/

theorem matchString_ci (f : GoFilter) (p : String)
    (hm : (f.patternMap.lookup p).isSome)
    {t₁ t₂ : String} (h : lowerStr t₁ = lowerStr t₂) :
    f.matchString p t₁ = f.matchString p t₂ := by
  rcases Option.isSome_iff_exists.mp hm with ⟨m, hm'⟩
  unfold GoFilter.matchString
  rw [hm']
  exact Compiled.run_ci m (lowerStr_eq_iff.mp h)

theorem matchDB_ci (f : GoFilter) {a₁ a₂ : String} (h : lowerStr a₁ = lowerStr a₂) :
    ∀ pats : List String, (∀ p ∈ pats, (f.patternMap.lookup p).isSome) →
      f.matchDB pats a₁ = f.matchDB pats a₂ := by
  intro pats
  induction pats with
  | nil => intro _; rfl
  | cons p ps ih =>
    intro hp
    unfold GoFilter.matchDB
    simp only [List.any_cons]
    rw [matchString_ci f p (hp p (List.mem_cons_self _ _)) h]
    have hih := ih (fun q hq => hp q (List.mem_cons.mpr (Or.inr hq)))
    unfold GoFilter.matchDB at hih
    rw [hih]

theorem matchTable_ci (f : GoFilter) {t₁ t₂ : Table}
    (hs : lowerStr t₁.Schema = lowerStr t₂.Schema)
    (hn : lowerStr t₁.Name = lowerStr t₂.Name) :
    ∀ pats : List Table,
      (∀ pt ∈ pats, (f.patternMap.lookup pt.Schema).isSome ∧
        (f.patternMap.lookup pt.Name).isSome) →
      f.matchTable pats t₁ = f.matchTable pats t₂ := by
  intro pats
  induction pats with
  | nil => intro _; rfl
  | cons pt ps ih =>
    intro hp
    unfold GoFilter.matchTable
    simp only [List.any_cons]
    rw [matchString_ci f pt.Schema (hp pt (List.mem_cons_self _ _)).1 hs,
      matchString_ci f pt.Name (hp pt (List.mem_cons_self _ _)).2 hn]
    have hih := ih (fun q hq => hp q (List.mem_cons.mpr (Or.inr hq)))
    unfold GoFilter.matchTable at hih
    rw [hih]

theorem mem_ruleStrings_doDBs {r : Rules} {p : String} (hp : p ∈ r.DoDBs) :
    p ∈ ruleStrings r := by
  simp only [ruleStrings, List.mem_append]
  exact Or.inl (Or.inl (Or.inl hp))

theorem mem_ruleStrings_ignoreDBs {r : Rules} {p : String} (hp : p ∈ r.IgnoreDBs) :
    p ∈ ruleStrings r := by
  simp only [ruleStrings, List.mem_append]
  exact Or.inl (Or.inr hp)

theorem mem_ruleStrings_doTables {r : Rules} {t : Table} (ht : t ∈ r.DoTables) :
    t.Schema ∈ ruleStrings r ∧ t.Name ∈ ruleStrings r := by
  constructor <;>
  · simp only [ruleStrings, List.mem_append, List.mem_flatten, List.mem_map]
    refine Or.inl (Or.inl (Or.inr ⟨[t.Schema, t.Name], ⟨t, ht, rfl⟩, ?_⟩))
    simp

theorem mem_ruleStrings_ignoreTables {r : Rules} {t : Table} (ht : t ∈ r.IgnoreTables) :
    t.Schema ∈ ruleStrings r ∧ t.Name ∈ ruleStrings r := by
  constructor <;>
  · simp only [ruleStrings, List.mem_append, List.mem_flatten, List.mem_map]
    refine Or.inr ⟨[t.Schema, t.Name], ⟨t, ht, rfl⟩, ?_⟩
    simp

theorem filterOnSchemas_ci {r : Rules} {f : GoFilter}
    (hf : filterNew (some r) = .ok f) {t₁ t₂ : Table}
    (hs : lowerStr t₁.Schema = lowerStr t₂.Schema) :
    f.filterOnSchemas r t₁ = f.filterOnSchemas r t₂ := by
  obtain ⟨_, hsome, _⟩ := filterNew_ok_spec hf
  unfold GoFilter.filterOnSchemas GoFilter.findMatchedDoDBs GoFilter.findMatchedIgnoreDBs
  rw [matchDB_ci f hs r.DoDBs (fun p hp => hsome p (mem_ruleStrings_doDBs hp)),
    matchDB_ci f hs r.IgnoreDBs (fun p hp => hsome p (mem_ruleStrings_ignoreDBs hp))]

theorem filterOnTables_ci {r : Rules} {f : GoFilter}
    (hf : filterNew (some r) = .ok f) {t₁ t₂ : Table}
    (hs : lowerStr t₁.Schema = lowerStr t₂.Schema)
    (hn : lowerStr t₁.Name = lowerStr t₂.Name) :
    f.filterOnTables r t₁ = f.filterOnTables r t₂ := by
  obtain ⟨_, hsome, _⟩ := filterNew_ok_spec hf
  have hlen : t₁.Name.length = t₂.Name.length := lowerStr_length hn
  unfold GoFilter.filterOnTables GoFilter.findMatchedDoTables GoFilter.findMatchedIgnoreTables
  rw [hlen,
    matchTable_ci f hs hn r.DoTables (fun pt hpt =>
      ⟨hsome _ (mem_ruleStrings_doTables hpt).1, hsome _ (mem_ruleStrings_doTables hpt).2⟩),
    matchTable_ci f hs hn r.IgnoreTables (fun pt hpt =>
      ⟨hsome _ (mem_ruleStrings_ignoreTables hpt).1,
        hsome _ (mem_ruleStrings_ignoreTables hpt).2⟩)]

/-- Evaluation of `ApplyOn` through non-nil rules as a list filter. -/
theorem applyOn_some {f : GoFilter} {r : Rules} (h : f.rules = some r) :
    ∀ stbs, applyOn (some f) stbs =
      stbs.filter (fun tb => f.filterOnSchemas r tb && f.filterOnTables r tb) := by
  intro stbs
  simp only [applyOn, h]

/-! ## Claim C5: matching is case-insensitive -/

/-- C5: rule matching is case-insensitive in the matched identifiers for
every pattern of a built filter; `skipDMLEvent` lowercases the incoming
schema/table before comparison, so event-time filtering cannot distinguish
identifiers with equal lowercase images; and concretely a do-DB rule
`"Foo"` accepts both schema `"foo"` and schema `"FOO"`. -/
theorem rules_matching_case_insensitive :
    (∀ (r : Rules) (f : GoFilter) (t t' : Table),
      filterNew (some r) = .ok f →
      lowerStr t.Schema = lowerStr t'.Schema →
      lowerStr t.Name = lowerStr t'.Name →
      (applyOn (some f) [t] = [t] ↔ applyOn (some f) [t'] = [t'])) ∧
    (∀ (sys : String → Bool) (s : Syncer) (schema table schema' table' : String)
        (e : EventType),
      sys schema = false → sys schema' = false →
      lowerStr schema = lowerStr schema' →
      lowerStr table = lowerStr table' →
      Syncer.skipDMLEvent sys s schema table e =
        Syncer.skipDMLEvent sys s schema' table' e) ∧
    (∃ f, filterNew (some ⟨[], ["Foo"], [], []⟩) = .ok f ∧
      applyOn (some f) [⟨"foo", "t"⟩] = [⟨"foo", "t"⟩] ∧
      applyOn (some f) [⟨"FOO", "t"⟩] = [⟨"FOO", "t"⟩]) := by
  refine ⟨?_, ?_, ?_⟩
  · intro r f t t' hf hs hn
    have hrules : f.rules = some r := (filterNew_ok_spec hf).1
    have hpred : (f.filterOnSchemas r t && f.filterOnTables r t) =
        (f.filterOnSchemas r t' && f.filterOnTables r t') := by
      rw [filterOnSchemas_ci hf hs, filterOnTables_ci hf hs hn]
    rw [applyOn_some hrules, applyOn_some hrules]
    rw [List.filter_cons, List.filter_cons, List.filter_nil, hpred]
    cases hp : (f.filterOnSchemas r t' && f.filterOnTables r t') with
    | true => simp
    | false =>
      simp only [Bool.false_eq_true, if_false]
      constructor <;> intro hx <;> exact absurd hx.symm (List.cons_ne_nil _ _)
  · intro sys s schema table schema' table' e hsys hsys' hsch htab
    unfold Syncer.skipDMLEvent
    rw [hsys, hsys', hsch, htab]
  · refine ⟨⟨[("Foo",
      ⟨.seq (.cls (.lit 'F')) (.seq (.cls (.lit 'o')) (.seq (.cls (.lit 'o')) .eps)),
        true, true⟩)], some ⟨[], ["Foo"], [], []⟩⟩, rfl, by decide, by decide⟩

/-- Witness for C5 at the `"Foo"` rule and candidates `"foo"`/`"FOO"`, and
at a concrete uppercase/lowercase schema pair for `skipDMLEvent`. -/
theorem rules_matching_case_insensitive_witness :
    (applyOn (some ⟨[("Foo",
        ⟨.seq (.cls (.lit 'F')) (.seq (.cls (.lit 'o')) (.seq (.cls (.lit 'o')) .eps)),
          true, true⟩)], some ⟨[], ["Foo"], [], []⟩⟩) [⟨"foo", "t"⟩] = [⟨"foo", "t"⟩] ↔
      applyOn (some ⟨[("Foo",
        ⟨.seq (.cls (.lit 'F')) (.seq (.cls (.lit 'o')) (.seq (.cls (.lit 'o')) .eps)),
          true, true⟩)], some ⟨[], ["Foo"], [], []⟩⟩) [⟨"FOO", "t"⟩] = [⟨"FOO", "t"⟩]) ∧
    Syncer.skipDMLEvent (fun _ => false) ⟨none, none⟩ "AA" "b" (EventType.other 0) =
      Syncer.skipDMLEvent (fun _ => false) ⟨none, none⟩ "aa" "b" (EventType.other 0) :=
  ⟨rules_matching_case_insensitive.1 ⟨[], ["Foo"], [], []⟩
      ⟨[("Foo", ⟨.seq (.cls (.lit 'F')) (.seq (.cls (.lit 'o')) (.seq (.cls (.lit 'o')) .eps)),
        true, true⟩)], some ⟨[], ["Foo"], [], []⟩⟩
      ⟨"foo", "t"⟩ ⟨"FOO", "t"⟩ rfl (by decide) (by decide),
    rules_matching_case_insensitive.2.1 (fun _ => false) ⟨none, none⟩ "AA" "b" "aa" "b"
      (EventType.other 0) rfl rfl (by decide) (by decide)⟩

/-! ## Claim C1: the table gate -/

theorem string_length_eq_zero_iff {s : String} : s.length = 0 ↔ s = "" := by
  cases s with
  | mk data =>
    cases data with
    | nil => simp
    | cons c cs =>
      constructor
      · intro h
        simp [String.length] at h
      · intro h
        have h2 := congrArg String.data h
        simp at h2

/-- C1: for a table with non-empty name, a non-empty do-list that matches
accepts; otherwise a non-empty ignore-list that matches rejects; otherwise
the table is accepted exactly when the do-list was empty — a non-empty
non-matching do-list is a hard reject even when the ignore-list would not
have rejected.  A table with empty name always passes the table gate. -/
theorem filterOnTables_gate :
    ∀ (f : GoFilter) (r : Rules) (t : Table),
      (t.Name = "" → f.filterOnTables r t = true) ∧
      (t.Name ≠ "" →
        ((r.DoTables ≠ [] ∧ f.findMatchedDoTables r t = true) →
          f.filterOnTables r t = true) ∧
        (¬(r.DoTables ≠ [] ∧ f.findMatchedDoTables r t = true) →
          (r.IgnoreTables ≠ [] ∧ f.findMatchedIgnoreTables r t = true) →
          f.filterOnTables r t = false) ∧
        (¬(r.DoTables ≠ [] ∧ f.findMatchedDoTables r t = true) →
          ¬(r.IgnoreTables ≠ [] ∧ f.findMatchedIgnoreTables r t = true) →
          (f.filterOnTables r t = true ↔ r.DoTables = []))) := by
  intro f r t
  constructor
  · intro hname
    unfold GoFilter.filterOnTables
    rw [if_pos (string_length_eq_zero_iff.mpr hname)]
  · intro hname
    have hlen : ¬(t.Name.length = 0) := fun h => hname (string_length_eq_zero_iff.mp h)
    refine ⟨?_, ?_, ?_⟩
    · intro ⟨hne, hmatch⟩
      unfold GoFilter.filterOnTables
      rw [if_neg hlen, if_pos]
      simp only [Bool.and_eq_true, decide_eq_true_eq]
      exact ⟨by simpa [List.length_pos] using hne, hmatch⟩
    · intro hnotdo ⟨hne, hmatch⟩
      unfold GoFilter.filterOnTables
      rw [if_neg hlen, if_neg, if_pos]
      · simp only [Bool.and_eq_true, decide_eq_true_eq]
        exact ⟨by simpa [List.length_pos] using hne, hmatch⟩
      · simp only [Bool.and_eq_true, decide_eq_true_eq, not_and]
        intro hpos
        have hne' : r.DoTables ≠ [] := by simpa [List.length_pos] using hpos
        intro hm
        exact hnotdo ⟨hne', hm⟩
    · intro hnotdo hnotig
      unfold GoFilter.filterOnTables
      rw [if_neg hlen, if_neg, if_neg]
      · constructor
        · intro h
          have := of_decide_eq_true h
          exact List.length_eq_zero.mp this
        · intro h
          rw [h]
          rfl
      · simp only [Bool.and_eq_true, decide_eq_true_eq, not_and]
        intro hpos hm
        exact hnotig ⟨by simpa [List.length_pos] using hpos, hm⟩
      · simp only [Bool.and_eq_true, decide_eq_true_eq, not_and]
        intro hpos hm
        exact hnotdo ⟨by simpa [List.length_pos] using hpos, hm⟩

/-- Witness for C1: the hard-reject case (non-empty non-matching do-list,
empty ignore-list) at a concrete filter, plus the empty-name case. -/
theorem filterOnTables_gate_witness :
    (GoFilter.filterOnTables ⟨[], some ⟨[⟨"a", "b"⟩], [], [], []⟩⟩
        ⟨[⟨"a", "b"⟩], [], [], []⟩ ⟨"x", "y"⟩ = true ↔
      ([⟨"a", "b"⟩] : List Table) = []) ∧
    GoFilter.filterOnTables ⟨[], some ⟨[⟨"a", "b"⟩], [], [], []⟩⟩
      ⟨[⟨"a", "b"⟩], [], [], []⟩ ⟨"x", ""⟩ = true :=
  ⟨((filterOnTables_gate ⟨[], some ⟨[⟨"a", "b"⟩], [], [], []⟩⟩
      ⟨[⟨"a", "b"⟩], [], [], []⟩ ⟨"x", "y"⟩).2 (by decide)).2.2 (by decide) (by decide),
    (filterOnTables_gate ⟨[], some ⟨[⟨"a", "b"⟩], [], [], []⟩⟩
      ⟨[⟨"a", "b"⟩], [], [], []⟩ ⟨"x", ""⟩).1 rfl⟩

/-! ## Claim C2: the schema gate and its precedence in `ApplyOn` -/

/-- C2: with a non-empty do-DB list the schema gate passes exactly the
tables whose schema matches some do-DB pattern and the ignore-DB list is
not consulted at all; only with an empty do-DB list does a match against a
non-empty ignore-DB list reject; consequently, under non-empty do-DBs a
table whose schema matches none of them is never in the `ApplyOn` output,
whatever the do/ignore table lists contain. -/
theorem filterOnSchemas_gate :
    ∀ (f : GoFilter) (r : Rules) (t : Table) (stbs : List Table) (igs : List String),
      (r.DoDBs ≠ [] →
        (f.filterOnSchemas r t = true ↔ f.matchDB r.DoDBs t.Schema = true) ∧
        f.filterOnSchemas { r with IgnoreDBs := igs } t = f.filterOnSchemas r t) ∧
      (r.DoDBs = [] → r.IgnoreDBs ≠ [] → f.matchDB r.IgnoreDBs t.Schema = true →
        f.filterOnSchemas r t = false) ∧
      (f.rules = some r → r.DoDBs ≠ [] → f.matchDB r.DoDBs t.Schema = false →
        t ∉ applyOn (some f) stbs) := by
  intro f r t stbs igs
  refine ⟨?_, ?_, ?_⟩
  · intro hne
    have hpos : r.DoDBs.length > 0 := List.length_pos.mpr hne
    constructor
    · unfold GoFilter.filterOnSchemas GoFilter.findMatchedDoDBs
      rw [if_pos hpos]
      cases hm : f.matchDB r.DoDBs t.Schema <;> simp [hm]
    · unfold GoFilter.filterOnSchemas GoFilter.findMatchedDoDBs
      rw [if_pos hpos, if_pos hpos]
  · intro hdo hne hm
    have hpos : r.IgnoreDBs.length > 0 := List.length_pos.mpr hne
    unfold GoFilter.filterOnSchemas GoFilter.findMatchedIgnoreDBs
    rw [hdo]
    simp only [List.length_nil, gt_iff_lt, Nat.lt_irrefl, if_false]
    rw [if_pos hpos, hm]
    rfl
  · intro hrules hne hm hmem
    rw [applyOn_some hrules] at hmem
    have hpred := List.of_mem_filter hmem
    simp only [Bool.and_eq_true] at hpred
    have hsch := hpred.1
    unfold GoFilter.filterOnSchemas GoFilter.findMatchedDoDBs at hsch
    rw [if_pos (List.length_pos.mpr hne), hm] at hsch
    simp at hsch

/-- Witness for C2: a do-DB rule `"a"`, a non-matching table `"x"`. -/
theorem filterOnSchemas_gate_witness :
    ((GoFilter.filterOnSchemas ⟨[], some ⟨[], ["a"], [], []⟩⟩ ⟨[], ["a"], [], []⟩
        ⟨"x", "y"⟩ = true ↔
      GoFilter.matchDB ⟨[], some ⟨[], ["a"], [], []⟩⟩ ["a"] "x" = true) ∧
      GoFilter.filterOnSchemas ⟨[], some ⟨[], ["a"], [], []⟩⟩
        { (⟨[], ["a"], [], []⟩ : Rules) with IgnoreDBs := ["x"] } ⟨"x", "y"⟩ =
        GoFilter.filterOnSchemas ⟨[], some ⟨[], ["a"], [], []⟩⟩ ⟨[], ["a"], [], []⟩
          ⟨"x", "y"⟩) ∧
    (⟨"x", "y"⟩ : Table) ∉ applyOn (some ⟨[], some ⟨[], ["a"], [], []⟩⟩)
      [⟨"x", "y"⟩, ⟨"a", "y"⟩] :=
  ⟨(filterOnSchemas_gate ⟨[], some ⟨[], ["a"], [], []⟩⟩ ⟨[], ["a"], [], []⟩ ⟨"x", "y"⟩
      [⟨"x", "y"⟩, ⟨"a", "y"⟩] ["x"]).1 (by decide),
    (filterOnSchemas_gate ⟨[], some ⟨[], ["a"], [], []⟩⟩ ⟨[], ["a"], [], []⟩ ⟨"x", "y"⟩
      [⟨"x", "y"⟩, ⟨"a", "y"⟩] ["x"]).2.2 rfl (by decide) (by decide)⟩
